import Mathlib

/-!
Shallow embedding of the flutter_embedder batch tensor adaptation layer
(src/rust/src/api/utils.rs and src/rust/src/api/embeddings/{bge,minilm,
jina_v3,gemma,qwen3}.rs).  The f32 arithmetic of the Rust code is modelled
over the reals; u32/i64 integer data is modelled as Nat/Int (all values in
play are small token ids and 0/1 masks, so no overflow is reachable).
The ONNX runtime session is modelled as an oracle function
`run : inputs -> Except String outputs`; dtype casting keeps the logical
integer values (the per-dtype numeric cast in tensor_from_i64 is
value-preserving for the token-id/mask ranges used).
-/

namespace FlutterEmbed

/-- Element types of ort tensors (ort::tensor::TensorElementType), with one
catch-all variant `unsup` for kinds that have no synthesis/cast rule in the
code (e.g. strings). -/
inductive ElemTy where
  | i64 | i32 | i16 | i8 | u64 | u32 | u16 | u8
  | boolean | f32 | f64 | f16 | bf16
  | unsup
deriving DecidableEq, Repr

/-- Whether tensor_from_i64 / zeros_tensor in qwen3.rs have a conversion rule
for this element type (every variant except the catch-all). -/
def ElemTy.supported : ElemTy → Bool
  | .unsup => false
  | _ => true

/-- ort::value::ValueType as seen by the input synthesizer: a tensor with an
element type and a declared per-axis extent list (negative = dynamic), or a
non-tensor value type. -/
inductive VT where
  | tensor (ty : ElemTy) (dims : List Int)
  | nontensor
deriving DecidableEq, Repr

/-- Declared rank of an input (shape.len()), with the default the code uses
when the ValueType is not a tensor. -/
def VT.rankD (vt : VT) (d : Nat) : Nat :=
  match vt with
  | .tensor _ dims => dims.length
  | .nontensor => d

/-- A tokenizer encoding: token ids (u32) and the equal-length 0/1
attention mask. -/
structure Encoding where
  ids : List Nat
  mask : List Nat
deriving DecidableEq, Repr

/-- An input tensor handed to the session: shape plus logical integer data
(flattened row-major). -/
structure TensorI where
  shape : List Nat
  data : List Int
deriving DecidableEq, Repr

/-- An f32 output tensor returned by inference: shape (cast to usize) plus
flattened row-major data. -/
structure OutTensor where
  shape : List Nat
  data : List ℝ

/-- Named output map returned by Session::run (SessionOutputs). -/
abbrev Outputs := List (String × OutTensor)

/-- The inference engine, abstracted as an oracle. -/
abbrev RunFn := List (String × TensorI) → Except String Outputs

/-! ## utils.rs -/

/-- Sum of squares under the L2 norm of utils.rs normalize. -/
noncomputable def l2norm (v : List ℝ) : ℝ :=
  Real.sqrt (v.map fun x => x * x).sum

/-- utils.rs `normalize`: divide by the L2 norm, floored at 1e-9. -/
noncomputable def normalize (v : List ℝ) : List ℝ :=
  let norm := l2norm v
  let norm2 := if norm < 1e-9 then 1e-9 else norm
  v.map fun x => x / norm2

/-- ndarray::Array2<f32>: a (nrows, ncols) matrix stored as a flattened
row-major list.  Element (i, j) sits at index i * ncols + j. -/
structure Arr2 where
  nrows : Nat
  ncols : Nat
  data : List ℝ

/-- Matrix element access (in-bounds by construction at every use site). -/
noncomputable def Arr2.entry (a : Arr2) (i j : Nat) : ℝ :=
  a.data.getD (i * a.ncols + j) 0

/-- The 0/1 float mask built inside mean_pooling_ndarray: take the first
seqLen mask entries, map nonzero to 1.0, and zero-extend to seqLen. -/
def maskFloats (attention_mask : List Nat) (seqLen : Nat) : List ℝ :=
  let m := (attention_mask.take seqLen).map fun v => if v = 0 then (0 : ℝ) else 1
  m ++ List.replicate (seqLen - m.length) 0

/-- utils.rs `mean_pooling_ndarray`: mask-weighted mean over the sequence
axis, returning the all-zero hidden-length vector when the mask count is
non-positive, and the empty vector when either dimension is zero. -/
noncomputable def mean_pooling_ndarray (a : Arr2) (attention_mask : List Nat) : List ℝ :=
  if a.nrows = 0 ∨ a.ncols = 0 then []
  else
    let mask := maskFloats attention_mask a.nrows
    let count := mask.sum
    if count ≤ 0 then List.replicate a.ncols 0
    else
      (List.range a.ncols).map fun j =>
        ((List.range a.nrows).map fun i => mask.getD i 0 * a.entry i j).sum / count

/-- ndarray Array2::from_shape_vec((r, c), v): succeeds iff the data length
matches the shape product. -/
def arrFromShapeVec (r c : Nat) (v : List ℝ) : Except String Arr2 :=
  if v.length = r * c then .ok ⟨r, c, v⟩ else .error "shape mismatch"

/-- utils.rs `mean_pooling_vec`: validates its inputs and delegates to
mean_pooling_ndarray, returning the empty vector on any malformed input. -/
noncomputable def mean_pooling_vec (embeddings : List (List ℝ))
    (attention_mask : List Nat) : List ℝ :=
  let seqLen := embeddings.length
  if seqLen = 0 then []
  else
    let hidden := (embeddings.headD []).length
    if hidden = 0 then []
    else if attention_mask.length ≠ seqLen then []
    else
      let flat := embeddings.flatten
      match arrFromShapeVec seqLen hidden flat with
      | .ok arr => mean_pooling_ndarray arr attention_mask
      | .error _ => []

/-! ## fit_mask and last-token selection (qwen3.rs / minilm.rs / jina_v3.rs) -/

/-- `fit_mask`: truncate or zero-extend a mask to the target length. -/
def fit_mask (mask : List Nat) (target : Nat) : List Nat :=
  if mask.length = target then mask
  else if target < mask.length then mask.take target
  else mask ++ List.replicate (target - mask.length) 0

/-- Iterator::rposition(|&m| m == 1): the highest index holding value 1. -/
def rposition1 : List Nat → Option Nat
  | [] => none
  | a :: l =>
    match rposition1 l with
    | some j => some (j + 1)
    | none => if a = 1 then some 0 else none

/-- The sequence index qwen3.rs last-token pooling selects for one row:
highest fitted-mask index holding 1, else seq_len - 1. -/
def lastValidIndex (mask : List Nat) (seqLen : Nat) : Nat :=
  (rposition1 (fit_mask mask seqLen)).getD (seqLen - 1)

/-! ## Shape resolution (qwen3.rs) -/

/-- Per-axis resolution: a non-negative declared extent verbatim, the
fallback value for a dynamic (negative) extent. -/
def resolveAxes : List Int → List Nat → List Nat
  | d :: ds, f :: fs => (if 0 ≤ d then d.toNat else f) :: resolveAxes ds fs
  | _, _ => []

/-- qwen3.rs `resolve_shape_with_fallback` (shape part): whole-fallback on a
rank mismatch, per-axis resolution otherwise. -/
def resolve_shape_with_fallback (dims : List Int) (fallback : List Nat) : List Nat :=
  if dims.length ≠ fallback.length then fallback
  else resolveAxes dims fallback

/-- Index-tracking loop of resolve_past_kv_shape. -/
def resolvePastKvAux (rank batch : Nat) : Nat → List Int → List Nat
  | _, [] => []
  | idx, d :: rest =>
    (if 0 ≤ d then d.toNat
     else if idx = 0 then batch
     else if idx = rank - 2 then 0
     else 1) :: resolvePastKvAux rank batch (idx + 1) rest

/-- qwen3.rs `resolve_past_kv_shape`: dynamic axis 0 becomes the batch,
the dynamic second-from-last axis becomes 0, other dynamic axes become 1. -/
def resolve_past_kv_shape (dims : List Int) (batch : Nat) : List Nat :=
  resolvePastKvAux dims.length batch 0 dims

/-- qwen3.rs `tensor_from_i64` (value-level): length check against the shape
product, then the per-dtype cast (value-preserving here), erroring on an
unsupported element type. -/
def tensor_from_i64 (ty : ElemTy) (shape : List Nat) (data : List Int) :
    Except String TensorI :=
  if shape.prod ≠ data.length then .error "Input data length mismatch"
  else if ty.supported then .ok ⟨shape, data⟩
  else .error "Unsupported tensor element type"

/-- qwen3.rs `zeros_tensor`: an all-zero tensor of the given shape, erroring
on an unsupported element type. -/
def zeros_tensor (ty : ElemTy) (shape : List Nat) : Except String TensorI :=
  if ty.supported then .ok ⟨shape, List.replicate shape.prod 0⟩
  else .error "Unsupported tensor element type"

/-- resolve_shape_with_fallback including its non-tensor ValueType error. -/
def resolveVT (vt : VT) (fallback : List Nat) : Except String (List Nat) :=
  match vt with
  | .tensor _ dims => .ok (resolve_shape_with_fallback dims fallback)
  | .nontensor => .error "Unsupported input type"

/-- tensor_from_i64 including its non-tensor ValueType error. -/
def tensorFromVT (vt : VT) (shape : List Nat) (data : List Int) :
    Except String TensorI :=
  match vt with
  | .tensor ty _ => tensor_from_i64 ty shape data
  | .nontensor => .error "Unsupported input type"

/-- zeros_tensor including its non-tensor ValueType error. -/
def zerosVT (vt : VT) (shape : List Nat) : Except String TensorI :=
  match vt with
  | .tensor ty _ => zeros_tensor ty shape
  | .nontensor => .error "Unsupported input type"

/-! ## Batch normalisation (shared by all embed implementations) -/

/-- max over the batch of encoding lengths, 0 when the batch is empty
(`.map(|e| e.get_ids().len()).max().unwrap_or(0)`). -/
def maxLenOf (encodings : List Encoding) : Nat :=
  (encodings.map fun e => e.ids.length).foldr max 0

/-- One row of the id batch: ids as i64, right-padded with the pad id. -/
def padIds (padId : Int) (maxLen : Nat) (e : Encoding) : List Int :=
  e.ids.map Int.ofNat ++ List.replicate (maxLen - e.ids.length) padId

/-- One row of the i64 mask batch, right-padded with 0 (pad length computed
from the ids length, as in the code). -/
def padMaskInt (maxLen : Nat) (e : Encoding) : List Int :=
  e.mask.map Int.ofNat ++ List.replicate (maxLen - e.ids.length) 0

/-- One row of the u32 per-row pooling mask, right-padded with 0. -/
def padMaskU (maxLen : Nat) (e : Encoding) : List Nat :=
  e.mask ++ List.replicate (maxLen - e.ids.length) 0

/-- Flattened input_ids batch. -/
def idsBatchOf (padId : Int) (maxLen : Nat) (encodings : List Encoding) : List Int :=
  (encodings.map (padIds padId maxLen)).flatten

/-- Flattened attention_mask batch. -/
def maskBatchOf (maxLen : Nat) (encodings : List Encoding) : List Int :=
  (encodings.map (padMaskInt maxLen)).flatten

/-- The per-row padded masks kept for pooling (masks_u32). -/
def masksUOf (maxLen : Nat) (encodings : List Encoding) : List (List Nat) :=
  encodings.map (padMaskU maxLen)

/-- position_ids row: 0..max_len as i64. -/
def positionIdsOf (maxLen : Nat) : List Int :=
  (List.range maxLen).map Int.ofNat

/-- qwen3.rs `repeat_i64`. -/
def repeatList (l : List Int) (times : Nat) : List Int :=
  (List.replicate times l).flatten

/-! ## Dynamic input synthesizer (qwen3.rs embed input loop) -/

/-- Flattened data of the rank-4 attention-mask tensor: each row's padded
mask replicated once per query position, rows concatenated. -/
def rank4MaskData (masksU : List (List Nat)) (maxLen : Nat) : List Int :=
  (masksU.map fun m => (List.replicate maxLen (m.map Int.ofNat)).flatten).flatten

/-- Synthesis of the input_ids tensor. -/
def synthInputIds (vt : VT) (batch maxLen : Nat) (idsB : List Int) :
    Except String TensorI := do
  let shape ← resolveVT vt [batch, maxLen]
  tensorFromVT vt shape idsB

/-- Synthesis of the attention_mask tensor: rank 1 only for batch 1, rank 4
as a broadcast square mask, any other rank as the plain [batch, max_len]
mask batch. -/
def synthAttentionMask (vt : VT) (batch maxLen : Nat) (maskB : List Int)
    (masksU : List (List Nat)) : Except String TensorI :=
  let rank := vt.rankD 2
  if rank = 1 then
    if 1 < batch then .error "attention_mask rank 1 is not batch-compatible"
    else do
      let shape ← resolveVT vt [maxLen]
      tensorFromVT vt shape (maskB.take maxLen)
  else if rank = 4 then do
    let shape ← resolveVT vt [batch, 1, maxLen, maxLen]
    tensorFromVT vt shape (rank4MaskData masksU maxLen)
  else do
    let shape ← resolveVT vt [batch, maxLen]
    tensorFromVT vt shape maskB

/-- Synthesis of position_ids / cache_position. -/
def synthPositionIds (vt : VT) (batch maxLen : Nat) : Except String TensorI :=
  let rank := vt.rankD 2
  if rank = 1 then
    if 1 < batch then .error "position_ids rank 1 is not batch-compatible"
    else do
      let shape ← resolveVT vt [maxLen]
      tensorFromVT vt shape (positionIdsOf maxLen)
  else do
    let shape ← resolveVT vt [batch, maxLen]
    tensorFromVT vt shape (repeatList (positionIdsOf maxLen) batch)

/-- Synthesis of token_type_ids: all-zero with fallback [batch, max_len]. -/
def synthTokenTypeIds (vt : VT) (batch maxLen : Nat) : Except String TensorI := do
  let shape ← resolveVT vt [batch, maxLen]
  zerosVT vt shape

/-- Synthesis of a past_key_values* cache placeholder: all-zero with the
dedicated shape resolution. -/
def synthPastKv (vt : VT) (batch : Nat) : Except String TensorI :=
  match vt with
  | .tensor ty dims => zeros_tensor ty (resolve_past_kv_shape dims batch)
  | .nontensor => .error "Unsupported input type"

/-- Synthesis of any other declared input: all-zero with a rank-directed
fallback shape. -/
def synthDefault (vt : VT) (batch maxLen : Nat) : Except String TensorI :=
  let rank := vt.rankD 1
  let fallback :=
    if rank = 1 then [maxLen]
    else if rank = 2 then [batch, maxLen]
    else List.replicate rank 1
  do
    let shape ← resolveVT vt fallback
    zerosVT vt shape

/-- Name-directed synthesis of one declared input (match arms of the qwen3
embed input loop). -/
def synthOne (name : String) (vt : VT) (batch maxLen : Nat)
    (idsB maskB : List Int) (masksU : List (List Nat)) : Except String TensorI :=
  if name = "input_ids" then synthInputIds vt batch maxLen idsB
  else if name = "attention_mask" then synthAttentionMask vt batch maxLen maskB masksU
  else if name = "position_ids" ∨ name = "cache_position" then
    synthPositionIds vt batch maxLen
  else if name = "token_type_ids" then synthTokenTypeIds vt batch maxLen
  else if name.startsWith "past_key_values" then synthPastKv vt batch
  else synthDefault vt batch maxLen

/-- The full input loop: synthesize every declared input in order, stopping
at the first error. -/
def buildInputs (batch maxLen : Nat) (idsB maskB : List Int)
    (masksU : List (List Nat)) :
    List (String × VT) → Except String (List (String × TensorI))
  | [] => .ok []
  | (name, vt) :: rest => do
    let t ← synthOne name vt batch maxLen idsB maskB masksU
    let ts ← buildInputs batch maxLen idsB maskB masksU rest
    .ok ((name, t) :: ts)

/-! ## Output tensor selection -/

/-- SessionOutputs::get by name (first match). -/
def lookupOut (outputs : Outputs) (key : String) : Option OutTensor :=
  (outputs.find? fun p => p.1 == key).map fun p => p.2

/-- First key of the alias list present among the outputs. -/
def pickFirstKey : List String → Outputs → Option OutTensor
  | [], _ => none
  | k :: ks, outputs =>
    match lookupOut outputs k with
    | some t => some t
    | none => pickFirstKey ks outputs

/-- Pooled-output alias search order of qwen3.rs pick_embedding_tensor. -/
def qwen3Keys : List String := ["sentence_embedding", "pooled_output", "embedding"]

/-- Pooled-output alias search order of minilm.rs pick_embedding_tensor. -/
def minilmKeys : List String :=
  ["sentence_embedding", "embedding", "pooled_output", "pooler_output"]

/-- Pooled-output alias search order of bge.rs pick_embedding_tensor. -/
def bgeKeys : List String :=
  ["sentence_embedding", "pooled_output", "pooler_output", "embedding"]

/-- pick_embedding_tensor: prefer the pooled aliases in order, fall back to
last_hidden_state, else error. -/
def pick_embedding_tensor (keys : List String) (outputs : Outputs) :
    Except String OutTensor :=
  match pickFirstKey keys outputs with
  | some t => .ok t
  | none =>
    match lookupOut outputs "last_hidden_state" with
    | some t => .ok t
    | none => .error "No embedding tensor found in outputs"

/-- data.get(start..start+len): in-bounds slice or none. -/
def sliceRange (data : List ℝ) (start len : Nat) : Option (List ℝ) :=
  if start + len ≤ data.length then some ((data.drop start).take len) else none

/-- The per-row result loop shared by every embed implementation: run the
row function for each element, stopping at the first error (the Rust
`for i in 0..batch { results.push(f(i)?) }` pattern). -/
def exceptMapList (F : α → Except String β) : List α → Except String (List β)
  | [] => .ok []
  | a :: l => do
    let b ← F a
    let bs ← exceptMapList F l
    .ok (b :: bs)

/-- Row slicing of an already pooled [batch, hidden] output, each row
normalized. -/
noncomputable def normalizedRows (data : List ℝ) (batch hidden : Nat) :
    Except String (List (List ℝ)) :=
  exceptMapList (fun i =>
    match sliceRange data (i * hidden) hidden with
    | some s => .ok (normalize s)
    | none => .error "Invalid output slice") (List.range batch)

/-! ## Qwen3 (qwen3.rs) -/

/-- One row of qwen3 last-token pooling: slice at the last valid index. -/
def qwenLastTokenRow (data : List ℝ) (seqLen hidden : Nat) (mask : List Nat)
    (i : Nat) : Except String (List ℝ) :=
  match sliceRange data ((i * seqLen + lastValidIndex mask seqLen) * hidden) hidden with
  | some s => .ok s
  | none => .error "Invalid last token slice"

/-- qwen3.rs output handling: rank-2 pooled passthrough, otherwise
last-token pooling on a [batch, seq, hidden] tensor (a rank below 2 is an
out-of-bounds shape index, i.e. a panic, modelled as an error). -/
noncomputable def qwen3Postprocess (outputs : Outputs) (masksU : List (List Nat))
    (batch : Nat) : Except String (List (List ℝ)) := do
  let t ← pick_embedding_tensor qwen3Keys outputs
  match t.shape with
  | [b, h] =>
    if b ≠ batch then .error "Batch size mismatch in outputs"
    else normalizedRows t.data batch h
  | b :: s :: h :: _ =>
    if b ≠ batch then .error "Batch size mismatch in outputs"
    else exceptMapList (fun i => do
      let row ← qwenLastTokenRow t.data s h (masksU.getD i []) i
      .ok (normalize row)) (List.range batch)
  | _ => .error "output shape index out of bounds"

/-- The input_ids batch pre-check of qwen3.rs embed: a positive declared
first extent must equal the actual batch, and then replaces it. -/
def qwen3AdjustBatch (specs : List (String × VT)) (batch : Nat) :
    Except String Nat :=
  match specs.find? fun s => s.1 == "input_ids" with
  | some (_, VT.tensor _ dims) =>
    match dims.head? with
    | some d =>
      if 0 < d ∧ d.toNat ≠ batch then .error "Batch size mismatch for input_ids"
      else .ok (if 0 < d then d.toNat else batch)
    | none => .ok batch
  | _ => .ok batch

/-- Qwen3Embedder::embed, from the encodings on (the tokenizer is external):
empty-batch and empty-encoding short-circuits, batch pre-check, dynamic
input synthesis, inference via the oracle, output pooling. -/
noncomputable def qwen3Embed (specs : List (String × VT)) (run : RunFn)
    (padId : Int) (encodings : List Encoding) : Except String (List (List ℝ)) :=
  if encodings.isEmpty then .ok []
  else do
    let batch ← qwen3AdjustBatch specs encodings.length
    let maxLen := maxLenOf encodings
    if maxLen = 0 then .ok (List.replicate batch [])
    else do
      let inputs ← buildInputs batch maxLen (idsBatchOf padId maxLen encodings)
        (maskBatchOf maxLen encodings) (masksUOf maxLen encodings) specs
      let outputs ← run inputs
      qwen3Postprocess outputs (masksUOf maxLen encodings) batch

/-! ## MiniLM (minilm.rs) -/

/-- The fixed input set built by minilm.rs/bge.rs: ids and mask tensors of
shape [batch, max_len], plus an all-zero token_type_ids tensor when the
model declares one. -/
def encoderInputs (specs : List (String × VT)) (batch maxLen : Nat)
    (idsB maskB : List Int) : List (String × TensorI) :=
  [("input_ids", ⟨[batch, maxLen], idsB⟩),
   ("attention_mask", ⟨[batch, maxLen], maskB⟩)] ++
    (if specs.any fun s => s.1 == "token_type_ids" then
      [("token_type_ids", ⟨[batch, maxLen], List.replicate (batch * maxLen) 0⟩)]
    else [])

/-- minilm.rs per-token path: mean pooling of a rank-3 last_hidden_state,
row by row, normalized. -/
noncomputable def minilmPerToken (t : OutTensor) (masksU : List (List Nat))
    (batch : Nat) : Except String (List (List ℝ)) :=
  match t.shape with
  | [b, s, h] =>
    if b ≠ batch then .error "Batch size mismatch in outputs"
    else exceptMapList (fun i =>
      match sliceRange t.data (i * s * h) (s * h) with
      | some slice => do
        let arr ← arrFromShapeVec s h slice
        .ok (normalize (mean_pooling_ndarray arr (fit_mask (masksU.getD i []) s)))
      | none => .error "Invalid output slice") (List.range batch)
  | _ => .error "Unexpected output shape"

/-- minilm.rs fallback path when no last_hidden_state output exists: the
pooled alias search, requiring a rank-2 tensor. -/
noncomputable def minilmPooled (outputs : Outputs) (batch : Nat) :
    Except String (List (List ℝ)) := do
  let t ← pick_embedding_tensor minilmKeys outputs
  match t.shape with
  | [b, h] =>
    if b ≠ batch then .error "Batch size mismatch in outputs"
    else normalizedRows t.data batch h
  | _ => .error "Unexpected output shape"

/-- minilm.rs output handling: last_hidden_state first, pooled aliases only
when it is absent. -/
noncomputable def minilmPostprocess (outputs : Outputs) (masksU : List (List Nat))
    (batch : Nat) : Except String (List (List ℝ)) :=
  match lookupOut outputs "last_hidden_state" with
  | some t => minilmPerToken t masksU batch
  | none => minilmPooled outputs batch

/-- MiniLmEmbedder::embed, from the encodings on. -/
noncomputable def minilmEmbed (specs : List (String × VT)) (run : RunFn)
    (padId : Int) (encodings : List Encoding) : Except String (List (List ℝ)) :=
  if encodings.isEmpty then .ok []
  else
    let batch := encodings.length
    let maxLen := maxLenOf encodings
    if maxLen = 0 then .ok (List.replicate batch [])
    else do
      let outputs ← run (encoderInputs specs batch maxLen
        (idsBatchOf padId maxLen encodings) (maskBatchOf maxLen encodings))
      minilmPostprocess outputs (masksUOf maxLen encodings) batch

/-! ## BGE (bge.rs) -/

/-- bge.rs output handling: pooled alias search; rank 2 row-sliced, rank 3
CLS/first-token extraction, anything else an error. -/
noncomputable def bgePostprocess (outputs : Outputs) (batch : Nat) :
    Except String (List (List ℝ)) := do
  let t ← pick_embedding_tensor bgeKeys outputs
  match t.shape with
  | [b, h] =>
    if b ≠ batch then .error "Batch size mismatch in outputs"
    else normalizedRows t.data batch h
  | [b, s, h] =>
    if b ≠ batch then .error "Batch size mismatch in outputs"
    else exceptMapList (fun i =>
      match sliceRange t.data ((i * s + Nat.min 0 (s - 1)) * h) h with
      | some slice => .ok (normalize slice)
      | none => .error "Invalid CLS slice") (List.range batch)
  | _ => .error "Unexpected output shape"

/-- BgeEmbedder::embed, from the encodings on. -/
noncomputable def bgeEmbed (specs : List (String × VT)) (run : RunFn)
    (padId : Int) (encodings : List Encoding) : Except String (List (List ℝ)) :=
  if encodings.isEmpty then .ok []
  else
    let batch := encodings.length
    let maxLen := maxLenOf encodings
    if maxLen = 0 then .ok (List.replicate batch [])
    else do
      let outputs ← run (encoderInputs specs batch maxLen
        (idsBatchOf padId maxLen encodings) (maskBatchOf maxLen encodings))
      bgePostprocess outputs batch

/-! ## Gemma (gemma.rs) -/

/-- gemma.rs fixed hidden size. -/
def gemmaHidden : Nat := 768

/-- gemma.rs output handling: the sentence_embedding output only, raw
(unnormalized) row slices of width 768. -/
def gemmaPostprocess (outputs : Outputs) (batch : Nat) :
    Except String (List (List ℝ)) :=
  match lookupOut outputs "sentence_embedding" with
  | none => .error "Missing sentence_embedding"
  | some t =>
    match t.shape.head? with
    | none => .error "output shape index out of bounds"
    | some b =>
      if b ≠ batch then .error "Batch size mismatch in outputs"
      else exceptMapList (fun i =>
        match sliceRange t.data (i * gemmaHidden) gemmaHidden with
        | some slice => .ok slice
        | none => .error "Invalid output slice") (List.range batch)

/-- GemmaEmbedder::embed, from the encodings on (only ids and mask inputs,
no token_type_ids probe). -/
def gemmaEmbed (run : RunFn) (padId : Int) (encodings : List Encoding) :
    Except String (List (List ℝ)) :=
  if encodings.isEmpty then .ok []
  else
    let batch := encodings.length
    let maxLen := maxLenOf encodings
    if maxLen = 0 then .ok (List.replicate batch [])
    else do
      let outputs ← run
        [("input_ids", ⟨[batch, maxLen], idsBatchOf padId maxLen encodings⟩),
         ("attention_mask", ⟨[batch, maxLen], maskBatchOf maxLen encodings⟩)]
      gemmaPostprocess outputs batch

/-! ## Jina v3 (jina_v3.rs) -/

/-- jina_v3.rs output handling: last_hidden_state only, mean pooling and
normalization per row. -/
noncomputable def jinaPostprocess (outputs : Outputs) (masksU : List (List Nat))
    (batch : Nat) : Except String (List (List ℝ)) :=
  match lookupOut outputs "last_hidden_state" with
  | none => .error "Missing last_hidden_state"
  | some t =>
    match t.shape with
    | b :: s :: h :: _ =>
      if b ≠ batch then .error "Batch size mismatch in outputs"
      else exceptMapList (fun i =>
        match sliceRange t.data (i * s * h) (s * h) with
        | some slice => do
          let arr ← arrFromShapeVec s h slice
          .ok (normalize (mean_pooling_ndarray arr (fit_mask (masksU.getD i []) s)))
        | none => .error "Invalid output slice") (List.range batch)
    | _ => .error "output shape index out of bounds"

/-- JinaV3Embedder::embed, from the encodings on (extra task_id input). -/
noncomputable def jinaEmbed (run : RunFn) (padId taskId : Int)
    (encodings : List Encoding) : Except String (List (List ℝ)) :=
  if encodings.isEmpty then .ok []
  else
    let batch := encodings.length
    let maxLen := maxLenOf encodings
    if maxLen = 0 then .ok (List.replicate batch [])
    else do
      let outputs ← run
        [("input_ids", ⟨[batch, maxLen], idsBatchOf padId maxLen encodings⟩),
         ("attention_mask", ⟨[batch, maxLen], maskBatchOf maxLen encodings⟩),
         ("task_id", ⟨[batch], List.replicate batch taskId⟩)]
      jinaPostprocess outputs (masksUOf maxLen encodings) batch

/-! ## Helper lemmas -/

theorem resolveAxes_length (ds : List Int) (fs : List Nat)
    (h : ds.length = fs.length) : (resolveAxes ds fs).length = ds.length := by
  induction ds generalizing fs with
  | nil => simp [resolveAxes]
  | cons d ds ih =>
    cases fs with
    | nil => simp at h
    | cons f fs =>
      simp only [resolveAxes, List.length_cons]
      rw [ih fs (by simpa using h)]

theorem resolveAxes_getD (ds : List Int) (fs : List Nat) (k : Nat)
    (h : ds.length = fs.length) (hk : k < ds.length) :
    (resolveAxes ds fs).getD k 0 =
      if 0 ≤ ds.getD k 0 then (ds.getD k 0).toNat else fs.getD k 0 := by
  induction ds generalizing fs k with
  | nil => simp at hk
  | cons d ds ih =>
    cases fs with
    | nil => simp at h
    | cons f fs =>
      cases k with
      | zero => simp [resolveAxes]
      | succ k =>
        simp only [resolveAxes, List.getD_cons_succ]
        exact ih fs k (by simpa using h) (by simpa using hk)

theorem resolveAxes_all_neg (ds : List Int) (fs : List Nat)
    (h : ds.length = fs.length) (hneg : ∀ d ∈ ds, d < 0) :
    resolveAxes ds fs = fs := by
  induction ds generalizing fs with
  | nil => cases fs with
    | nil => rfl
    | cons f fs => simp at h
  | cons d ds ih =>
    cases fs with
    | nil => simp at h
    | cons f fs =>
      have hd : d < 0 := hneg d (by simp)
      simp only [resolveAxes, if_neg (by omega : ¬(0 : Int) ≤ d)]
      rw [ih fs (by simpa using h) fun x hx => hneg x (by simp [hx])]

theorem resolvePastKvAux_length (rank batch : Nat) (ds : List Int) (idx : Nat) :
    (resolvePastKvAux rank batch idx ds).length = ds.length := by
  induction ds generalizing idx with
  | nil => rfl
  | cons d ds ih => simp only [resolvePastKvAux, List.length_cons, ih]

theorem resolvePastKvAux_getD (rank batch : Nat) (ds : List Int) (idx k : Nat)
    (hk : k < ds.length) :
    (resolvePastKvAux rank batch idx ds).getD k 0 =
      if 0 ≤ ds.getD k 0 then (ds.getD k 0).toNat
      else if idx + k = 0 then batch
      else if idx + k = rank - 2 then 0
      else 1 := by
  induction ds generalizing idx k with
  | nil => simp at hk
  | cons d ds ih =>
    cases k with
    | zero => simp [resolvePastKvAux]
    | succ k =>
      simp only [resolvePastKvAux, List.getD_cons_succ]
      rw [ih (idx + 1) k (by simpa using hk)]
      have : idx + 1 + k = idx + (k + 1) := by omega
      rw [this]

theorem exceptMapList_ok {α β : Type} (F : α → Except String β) (f : α → β)
    (l : List α) (h : ∀ a ∈ l, F a = .ok (f a)) :
    exceptMapList F l = .ok (l.map f) := by
  induction l with
  | nil => rfl
  | cons a l ih =>
    simp only [exceptMapList, h a (by simp), List.map_cons]
    rw [ih fun x hx => h x (by simp [hx])]
    rfl

theorem maxLenOf_cons (x : Encoding) (xs : List Encoding) :
    maxLenOf (x :: xs) = max x.ids.length (maxLenOf xs) := rfl

theorem maxLenOf_ge : ∀ (encodings : List Encoding) (e : Encoding),
    e ∈ encodings → e.ids.length ≤ maxLenOf encodings := by
  intro encodings
  induction encodings with
  | nil => intro e he; simp at he
  | cons x xs ih =>
    intro e he
    rw [maxLenOf_cons]
    rcases List.mem_cons.mp he with he | he
    · rw [he]; exact le_max_left _ _
    · exact le_trans (ih e he) (le_max_right _ _)

theorem maxLenOf_eq_zero (encodings : List Encoding)
    (h : ∀ e ∈ encodings, e.ids.length = 0) : maxLenOf encodings = 0 := by
  induction encodings with
  | nil => rfl
  | cons x xs ih =>
    simp only [maxLenOf, List.map_cons, List.foldr_cons]
    rw [h x (by simp)]
    simpa [maxLenOf] using ih fun e he => h e (by simp [he])

theorem padMaskU_length (maxLen : Nat) (e : Encoding)
    (hlen : e.mask.length = e.ids.length) (hle : e.ids.length ≤ maxLen) :
    (padMaskU maxLen e).length = maxLen := by
  simp [padMaskU, hlen]
  omega

/-! ## C3: shape resolution against a declared input spec -/

/-- C3: resolve_shape_with_fallback returns the fallback verbatim on a rank
mismatch, and otherwise keeps every non-negative declared extent and
substitutes the fallback value at every dynamic (negative) axis. -/
theorem c3_resolve_shape_with_fallback (dims : List Int) (fallback : List Nat) :
    (dims.length ≠ fallback.length →
      resolve_shape_with_fallback dims fallback = fallback) ∧
    (dims.length = fallback.length →
      (resolve_shape_with_fallback dims fallback).length = dims.length ∧
      ∀ k, k < dims.length →
        (resolve_shape_with_fallback dims fallback).getD k 0 =
          if 0 ≤ dims.getD k 0 then (dims.getD k 0).toNat
          else fallback.getD k 0) := by
  constructor
  · intro h
    simp [resolve_shape_with_fallback, h]
  · intro h
    rw [resolve_shape_with_fallback, if_neg (by omega)]
    exact ⟨resolveAxes_length dims fallback h,
      fun k hk => resolveAxes_getD dims fallback k h hk⟩

/-- C3 witness: a rank-mismatching spec falls back entirely, and a dynamic
axis of a rank-matching spec picks up the fallback value. -/
theorem c3_resolve_shape_with_fallback_witness :
    resolve_shape_with_fallback [7, -1, -1] [2, 5] = [2, 5] ∧
    (resolve_shape_with_fallback [7, -1] [2, 5]).getD 1 0 = 5 := by
  constructor
  · exact (c3_resolve_shape_with_fallback [7, -1, -1] [2, 5]).1 (by decide)
  · rw [((c3_resolve_shape_with_fallback [7, -1] [2, 5]).2 (by decide)).2 1 (by decide)]
    decide

/-! ## C4: past_key_values placeholder synthesis -/

/-- C4: resolve_past_kv_shape keeps non-negative declared extents verbatim
and fills dynamic axes with the batch at axis 0 (which takes precedence),
0 at the second-from-last axis, and 1 elsewhere, for every declared rank;
the synthesized past_key_values tensor is all-zero with that shape. -/
theorem c4_past_kv_shape (dims : List Int) (batch : Nat) (ty : ElemTy) :
    (resolve_past_kv_shape dims batch).length = dims.length ∧
    (∀ k, k < dims.length →
      (resolve_past_kv_shape dims batch).getD k 0 =
        if 0 ≤ dims.getD k 0 then (dims.getD k 0).toNat
        else if k = 0 then batch
        else if k = dims.length - 2 then 0
        else 1) ∧
    (ty.supported = true →
      synthPastKv (.tensor ty dims) batch =
        .ok ⟨resolve_past_kv_shape dims batch,
             List.replicate (resolve_past_kv_shape dims batch).prod 0⟩) := by
  refine ⟨resolvePastKvAux_length _ _ _ _, fun k hk => ?_, fun hty => ?_⟩
  · rw [resolve_past_kv_shape, resolvePastKvAux_getD _ _ _ _ _ hk]
    simp only [Nat.zero_add]
  · simp [synthPastKv, zeros_tensor, hty]

/-- C4 witness: a rank-4 cache spec with a static layer axis, the rank-2
edge case where axis 0 is itself second-from-last (the batch rule wins),
and the synthesized all-zero tensor. -/
theorem c4_past_kv_shape_witness :
    (resolve_past_kv_shape [-1, 3, -1, -1] 2).getD 0 0 = 2 ∧
    (resolve_past_kv_shape [-1, 3, -1, -1] 2).getD 1 0 = 3 ∧
    (resolve_past_kv_shape [-1, 3, -1, -1] 2).getD 2 0 = 0 ∧
    (resolve_past_kv_shape [-1, 3, -1, -1] 2).getD 3 0 = 1 ∧
    (resolve_past_kv_shape [-1, -1] 5).getD 0 0 = 5 ∧
    synthPastKv (.tensor .f32 [-1, 3, -1]) 2 =
      .ok ⟨[2, 3, 1], List.replicate 6 0⟩ := by
  refine ⟨?_, ?_, ?_, ?_, ?_, ?_⟩
  · rw [(c4_past_kv_shape [-1, 3, -1, -1] 2 .f32).2.1 0 (by decide)]; decide
  · rw [(c4_past_kv_shape [-1, 3, -1, -1] 2 .f32).2.1 1 (by decide)]; decide
  · rw [(c4_past_kv_shape [-1, 3, -1, -1] 2 .f32).2.1 2 (by decide)]; decide
  · rw [(c4_past_kv_shape [-1, 3, -1, -1] 2 .f32).2.1 3 (by decide)]; decide
  · rw [(c4_past_kv_shape [-1, -1] 5 .f32).2.1 0 (by decide)]; decide
  · rw [(c4_past_kv_shape [-1, 3, -1] 2 .f32).2.2 rfl]; rfl

/-! ## C6: mean pooling with an all-zero mask -/

/-- C6: on a non-empty matrix whose fitted mask sums to zero,
mean_pooling_ndarray returns the all-zero vector of hidden length without
ever dividing by the zero count. -/
theorem c6_mean_pooling_zero_mask (a : Arr2) (attention_mask : List Nat)
    (h1 : 0 < a.nrows) (h2 : 0 < a.ncols)
    (h3 : (maskFloats attention_mask a.nrows).sum = 0) :
    mean_pooling_ndarray a attention_mask = List.replicate a.ncols 0 := by
  have hno : ¬(a.nrows = 0 ∨ a.ncols = 0) := by omega
  simp only [mean_pooling_ndarray]
  rw [if_neg hno, h3, if_pos le_rfl]

/-- C6 witness: a 2-by-3 matrix with a zero mask pools to [0, 0, 0]. -/
theorem c6_mean_pooling_zero_mask_witness :
    mean_pooling_ndarray ⟨2, 3, [1, 2, 3, 4, 5, 6]⟩ [0, 0] = [0, 0, 0] := by
  rw [c6_mean_pooling_zero_mask ⟨2, 3, [1, 2, 3, 4, 5, 6]⟩ [0, 0]
    (by decide) (by decide) (by simp [maskFloats])]
  rfl

/-! ## C10: mean_pooling_vec on malformed input -/

/-- C10: mean_pooling_vec silently returns the empty vector when the row
list is empty, when the first row is empty, or when the mask length differs
from the row count (being a total function, it cannot panic). -/
theorem c10_mean_pooling_vec_malformed (embeddings : List (List ℝ))
    (attention_mask : List Nat) :
    (embeddings = [] → mean_pooling_vec embeddings attention_mask = []) ∧
    ((embeddings.headD []).length = 0 →
      mean_pooling_vec embeddings attention_mask = []) ∧
    (attention_mask.length ≠ embeddings.length →
      mean_pooling_vec embeddings attention_mask = []) := by
  refine ⟨fun h => ?_, fun h => ?_, fun h => ?_⟩
  · subst h; rfl
  · simp only [mean_pooling_vec]
    by_cases h0 : embeddings.length = 0
    · rw [if_pos h0]
    · rw [if_neg h0, if_pos h]
  · simp only [mean_pooling_vec]
    by_cases h0 : embeddings.length = 0
    · rw [if_pos h0]
    · by_cases h1 : (embeddings.headD []).length = 0
      · rw [if_neg h0, if_pos h1]
      · rw [if_neg h0, if_neg h1, if_pos h]

/-- C10 witness: the three malformed shapes each yield the empty vector. -/
theorem c10_mean_pooling_vec_malformed_witness :
    mean_pooling_vec ([] : List (List ℝ)) [1] = [] ∧
    mean_pooling_vec [([] : List ℝ)] [1] = [] ∧
    mean_pooling_vec [[(1 : ℝ), 2]] [1, 1, 1] = [] := by
  refine ⟨(c10_mean_pooling_vec_malformed [] [1]).1 rfl,
    (c10_mean_pooling_vec_malformed [([] : List ℝ)] [1]).2.1 rfl,
    (c10_mean_pooling_vec_malformed [[(1 : ℝ), 2]] [1, 1, 1]).2.2 (by decide)⟩

/-! ## C7: last-valid-token selection -/

theorem rposition1_none : ∀ (l : List Nat), rposition1 l = none →
    ∀ k, l.get? k ≠ some 1 := by
  intro l
  induction l with
  | nil => intro _ k; simp
  | cons a l ih =>
    intro h k
    simp only [rposition1] at h
    split at h
    · exact absurd h (by simp)
    · next heq =>
      split at h
      · exact absurd h (by simp)
      · next ha =>
        cases k with
        | zero => simp [ha]
        | succ k => simpa using ih heq k

theorem rposition1_get : ∀ (l : List Nat) (j : Nat), rposition1 l = some j →
    l.get? j = some 1 := by
  intro l
  induction l with
  | nil => intro j h; simp [rposition1] at h
  | cons a l ih =>
    intro j h
    simp only [rposition1] at h
    split at h
    · next j1 heq =>
      injection h with h2
      subst h2
      simpa using ih j1 heq
    · next heq =>
      split at h
      · next ha =>
        injection h with h2
        subst h2
        simp [ha]
      · exact absurd h (by simp)

theorem rposition1_max : ∀ (l : List Nat) (j : Nat), rposition1 l = some j →
    ∀ k, j < k → l.get? k ≠ some 1 := by
  intro l
  induction l with
  | nil => intro j h; simp [rposition1] at h
  | cons a l ih =>
    intro j h k hk
    simp only [rposition1] at h
    split at h
    · next j1 heq =>
      injection h with h2
      subst h2
      cases k with
      | zero => omega
      | succ k =>
        simp only [List.get?_cons_succ]
        exact ih j1 heq k (by omega)
    · next heq =>
      split at h
      · next ha =>
        injection h with h2
        subst h2
        cases k with
        | zero => omega
        | succ k => simpa using rposition1_none l heq k
      · exact absurd h (by simp)

/-- C7: last-token pooling selects the highest fitted-mask index holding a
1 bit, falls back to seq_len - 1 when the fitted mask has no 1 bit, and
extracts the hidden-length slice at that index. -/
theorem c7_last_valid_token (mask : List Nat) (seqLen hidden : Nat)
    (data : List ℝ) (i : Nat) :
    (∀ k, (fit_mask mask seqLen).get? k = some 1 →
      (fit_mask mask seqLen).get? (lastValidIndex mask seqLen) = some 1 ∧
      ∀ j, lastValidIndex mask seqLen < j →
        (fit_mask mask seqLen).get? j ≠ some 1) ∧
    ((∀ k, (fit_mask mask seqLen).get? k ≠ some 1) →
      lastValidIndex mask seqLen = seqLen - 1) ∧
    ((i * seqLen + lastValidIndex mask seqLen) * hidden + hidden ≤ data.length →
      qwenLastTokenRow data seqLen hidden mask i =
        .ok ((data.drop ((i * seqLen + lastValidIndex mask seqLen) * hidden)).take
          hidden)) := by
  refine ⟨fun k hk => ?_, fun h => ?_, fun h => ?_⟩
  · cases hr : rposition1 (fit_mask mask seqLen) with
    | none => exact absurd hk (rposition1_none _ hr k)
    | some j =>
      have hli : lastValidIndex mask seqLen = j := by
        simp [lastValidIndex, hr]
      rw [hli]
      exact ⟨rposition1_get _ j hr, fun m hm => rposition1_max _ j hr m hm⟩
  · cases hr : rposition1 (fit_mask mask seqLen) with
    | none => simp [lastValidIndex, hr]
    | some j => exact absurd (rposition1_get _ j hr) (h j)
  · simp only [qwenLastTokenRow, sliceRange]
    rw [if_pos h]

/-- C7 witness: mask [1,0,1,0] selects index 2 and slices that token's
hidden vector; the all-zero mask of length 2 falls back to index 1. -/
theorem c7_last_valid_token_witness :
    (fit_mask [1, 0, 1, 0] 4).get? (lastValidIndex [1, 0, 1, 0] 4) = some 1 ∧
    (fit_mask [1, 0, 1, 0] 4).get? 3 ≠ some 1 ∧
    lastValidIndex [0, 0] 2 = 1 ∧
    qwenLastTokenRow [10, 20, 30, 40, 50, 60, 70, 80] 4 2 [1, 0, 1, 0] 0 =
      .ok [50, 60] := by
  have h1 := (c7_last_valid_token [1, 0, 1, 0] 4 2 [] 0).1 0 (by decide)
  refine ⟨h1.1, h1.2 3 (by decide), ?_, ?_⟩
  · exact (c7_last_valid_token [0, 0] 2 2 [] 0).2.1 fun k => by
      match k with
      | 0 => decide
      | 1 => decide
      | (n + 2) => simp [fit_mask]
  · rw [(c7_last_valid_token [1, 0, 1, 0] 4 2
      [10, 20, 30, 40, 50, 60, 70, 80] 0).2.2 (by decide)]
    rfl

/-! ## C5: normalize -/

theorem sum_sq_nonneg (v : List ℝ) : 0 ≤ (v.map fun x => x * x).sum := by
  induction v with
  | nil => simp
  | cons a l ih =>
    simp only [List.map_cons, List.sum_cons]
    exact add_nonneg (mul_self_nonneg a) ih

theorem sum_sq_map_div (v : List ℝ) (c : ℝ) :
    ((v.map fun x => x / c).map fun x => x * x).sum =
      (v.map fun x => x * x).sum / c ^ 2 := by
  induction v with
  | nil => simp
  | cons a l ih =>
    simp only [List.map_cons, List.sum_cons, ih]
    rw [pow_two, div_mul_div_comm, div_add_div_same]

theorem l2norm_map_div (v : List ℝ) (c : ℝ) (hc : 0 ≤ c) :
    l2norm (v.map fun x => x / c) = l2norm v / c := by
  unfold l2norm
  rw [sum_sq_map_div, Real.sqrt_div (sum_sq_nonneg v), Real.sqrt_sq hc]

theorem normalize_floor_eq_max (v : List ℝ) :
    (if l2norm v < 1e-9 then (1e-9 : ℝ) else l2norm v) = max (l2norm v) 1e-9 := by
  by_cases h : l2norm v < 1e-9
  · rw [if_pos h, max_eq_right h.le]
  · rw [if_neg h, max_eq_left (le_of_not_lt h)]

/-- C5 amended: normalize divides by max(L2 norm, 1e-9); for a vector whose
L2 norm is at least 1e-9 the result has L2 norm exactly 1 (so within 1e-3
of 1), and the all-zero vector maps to the all-zero (finite) vector.  The
original claim's "any nonzero v" fails for norms below the 1e-9 floor. -/
theorem c5_normalize_amended :
    (∀ v : List ℝ, normalize v = v.map fun x => x / max (l2norm v) 1e-9) ∧
    (∀ v : List ℝ, (1e-9 : ℝ) ≤ l2norm v →
      |l2norm (normalize v) - 1| ≤ 1e-3) ∧
    (∀ n : Nat, normalize (List.replicate n 0) = List.replicate n 0) := by
  refine ⟨fun v => ?_, fun v hv => ?_, fun n => ?_⟩
  · simp only [normalize, normalize_floor_eq_max]
  · have hnorm : ¬l2norm v < 1e-9 := not_lt.mpr hv
    have hpos : (0 : ℝ) < l2norm v := lt_of_lt_of_le (by norm_num) hv
    simp only [normalize, if_neg hnorm]
    rw [l2norm_map_div v (l2norm v) hpos.le, div_self (ne_of_gt hpos)]
    norm_num
  · have h0 : l2norm (List.replicate n 0) = 0 := by
      simp [l2norm]
    have hc : (if l2norm (List.replicate n (0 : ℝ)) < 1e-9 then (1e-9 : ℝ)
        else l2norm (List.replicate n (0 : ℝ))) = 1e-9 := by
      rw [h0, if_pos (by norm_num)]
    simp only [normalize, hc, List.map_replicate, zero_div]

/-- C5 counterexample: [1e-12] is nonzero, yet its normalization [1e-3] has
L2 norm 1e-3, far outside 1e-3 of 1. -/
theorem c5_normalize_counterexample :
    ((1e-12 : ℝ) ≠ 0) ∧
    normalize [(1e-12 : ℝ)] = [(1e-3 : ℝ)] ∧
    ¬|l2norm (normalize [(1e-12 : ℝ)]) - 1| ≤ 1e-3 := by
  have hn : l2norm [(1e-12 : ℝ)] = 1e-12 := by
    unfold l2norm
    simp only [List.map_cons, List.map_nil, List.sum_cons, List.sum_nil]
    rw [show (1e-12 : ℝ) * 1e-12 + 0 = (1e-12 : ℝ) ^ 2 by ring,
      Real.sqrt_sq (by norm_num)]
  have hnormalize : normalize [(1e-12 : ℝ)] = [(1e-3 : ℝ)] := by
    simp only [normalize, hn, List.map_cons, List.map_nil]
    norm_num
  have h3 : l2norm [(1e-3 : ℝ)] = 1e-3 := by
    unfold l2norm
    simp only [List.map_cons, List.map_nil, List.sum_cons, List.sum_nil]
    rw [show (1e-3 : ℝ) * 1e-3 + 0 = (1e-3 : ℝ) ^ 2 by ring,
      Real.sqrt_sq (by norm_num)]
  refine ⟨by norm_num, hnormalize, ?_⟩
  rw [hnormalize, h3,
    show |(1e-3 : ℝ) - 1| = 1 - 1e-3 by rw [abs_of_neg (by norm_num)]; ring]
  norm_num

/-- C5 witness for the amended theorem: [3, 4] has norm 5 and normalizes to
unit norm; the zero vector of length 2 maps to itself. -/
theorem c5_normalize_amended_witness :
    |l2norm (normalize [(3 : ℝ), 4]) - 1| ≤ 1e-3 ∧
    normalize (List.replicate 2 0) = List.replicate 2 0 := by
  constructor
  · refine c5_normalize_amended.2.1 [(3 : ℝ), 4] ?_
    have : l2norm [(3 : ℝ), 4] = 5 := by
      unfold l2norm
      simp only [List.map_cons, List.map_nil, List.sum_cons, List.sum_nil]
      rw [show (3 : ℝ) * 3 + (4 * 4 + 0) = (5 : ℝ) ^ 2 by ring,
        Real.sqrt_sq (by norm_num)]
    rw [this]
    norm_num
  · exact c5_normalize_amended.2.2 2

/-! ## C2: rank-4 attention_mask synthesis -/

theorem drop_append_len {α : Type} (x rest : List α) (n : Nat) :
    (x ++ rest).drop (x.length + n) = rest.drop n := by
  induction x with
  | nil => simp
  | cons a x ih =>
    simp only [List.cons_append, List.length_cons]
    have h : x.length + 1 + n = (x.length + n) + 1 := by omega
    rw [h, List.drop_succ_cons, ih]

theorem flatten_drop_uniform {α : Type} (L : Nat) :
    ∀ (ls : List (List α)) (i : Nat), (∀ l ∈ ls, l.length = L) →
      ls.flatten.drop (i * L) = (ls.drop i).flatten := by
  intro ls
  induction ls with
  | nil => intro i _; simp
  | cons x xs ih =>
    intro i h
    cases i with
    | zero => simp
    | succ i =>
      have hx : x.length = L := h x (by simp)
      simp only [List.flatten_cons, List.drop_succ_cons]
      have harith : (i + 1) * L = x.length + i * L := by rw [hx]; ring
      rw [harith, drop_append_len, ih i fun l hl => h l (by simp [hl])]

theorem repl_flatten_length {α : Type} (l : List α) :
    ∀ M : Nat, (List.replicate M l).flatten.length = M * l.length := by
  intro M
  induction M with
  | zero => simp
  | succ M ih =>
    simp only [List.replicate_succ, List.flatten_cons, List.length_append, ih]
    ring

theorem rank4MaskData_cons (m : List Nat) (ms : List (List Nat)) (M : Nat) :
    rank4MaskData (m :: ms) M =
      (List.replicate M (m.map Int.ofNat)).flatten ++ rank4MaskData ms M := by
  simp [rank4MaskData]

theorem rank4MaskData_length (M : Nat) : ∀ (masksU : List (List Nat)),
    (∀ m ∈ masksU, m.length = M) →
    (rank4MaskData masksU M).length = masksU.length * (M * M) := by
  intro masksU
  induction masksU with
  | nil => intro _; simp [rank4MaskData]
  | cons m ms ih =>
    intro h
    rw [rank4MaskData_cons]
    simp only [List.length_append, List.length_cons]
    rw [repl_flatten_length, ih fun l hl => h l (by simp [hl]),
      List.length_map, h m (by simp)]
    ring

theorem rank4MaskData_slice (M : Nat) : ∀ (masksU : List (List Nat)) (i q : Nat),
    (∀ m ∈ masksU, m.length = M) → i < masksU.length → q < M →
    ((rank4MaskData masksU M).drop ((i * M + q) * M)).take M =
      (masksU.getD i []).map Int.ofNat := by
  intro masksU
  induction masksU with
  | nil => intro i q _ hi _; simp at hi
  | cons m ms ih =>
    intro i q hlen hi hq
    cases i with
    | zero =>
      have hm : m.length = M := hlen m (by simp)
      rw [rank4MaskData_cons, List.getD_cons_zero]
      rw [show (0 * M + q) * M = q * M by ring]
      have hqlen : q * M ≤ (List.replicate M (m.map Int.ofNat)).flatten.length := by
        rw [repl_flatten_length, List.length_map, hm]
        exact Nat.mul_le_mul_right M (le_of_lt hq)
      rw [List.drop_append_of_le_length hqlen]
      rw [flatten_drop_uniform M _ q
        (fun l hl => by rw [List.eq_of_mem_replicate hl, List.length_map, hm]),
        List.drop_replicate]
      have hMq : M - q = (M - q - 1) + 1 := by omega
      rw [hMq, List.replicate_succ, List.flatten_cons, List.append_assoc]
      rw [show M = (m.map Int.ofNat).length by rw [List.length_map, hm],
        List.take_left]
    | succ i =>
      have hm : m.length = M := hlen m (by simp)
      rw [rank4MaskData_cons, List.getD_cons_succ]
      have harith : ((i + 1) * M + q) * M =
          (List.replicate M (m.map Int.ofNat)).flatten.length + (i * M + q) * M := by
        rw [repl_flatten_length, List.length_map, hm]
        ring
      rw [harith, drop_append_len]
      exact ih i q (fun l hl => hlen l (by simp [hl])) (by simpa using hi) hq

theorem masksUOf_all_length (encodings : List Encoding)
    (hlen : ∀ e ∈ encodings, e.mask.length = e.ids.length) :
    ∀ mk ∈ masksUOf (maxLenOf encodings) encodings,
      mk.length = maxLenOf encodings := by
  intro mk hmk
  obtain ⟨e, he, rfl⟩ := List.mem_map.mp hmk
  exact padMaskU_length _ e (hlen e he) (maxLenOf_ge _ e he)

/-- C2: a rank-4 attention_mask declaration with dynamic axes synthesizes a
tensor of shape [batch, 1, max_len, max_len] whose (i, 0, q, .) slice is
row i's padded mask, for every row i and query position q; non-negative
declared extents would be kept verbatim by the shape resolution. -/
theorem c2_rank4_attention_mask (ty : ElemTy) (dims : List Int)
    (encodings : List Encoding)
    (hlen : ∀ e ∈ encodings, e.mask.length = e.ids.length)
    (hrank : dims.length = 4) (hty : ty.supported = true)
    (hdyn : ∀ d ∈ dims, d < 0) :
    synthAttentionMask (.tensor ty dims) encodings.length (maxLenOf encodings)
        (maskBatchOf (maxLenOf encodings) encodings)
        (masksUOf (maxLenOf encodings) encodings) =
      .ok ⟨[encodings.length, 1, maxLenOf encodings, maxLenOf encodings],
           rank4MaskData (masksUOf (maxLenOf encodings) encodings)
             (maxLenOf encodings)⟩ ∧
    (∀ i q, i < encodings.length → q < maxLenOf encodings →
      ((rank4MaskData (masksUOf (maxLenOf encodings) encodings)
          (maxLenOf encodings)).drop
            ((i * maxLenOf encodings + q) * maxLenOf encodings)).take
          (maxLenOf encodings) =
        ((masksUOf (maxLenOf encodings) encodings).getD i []).map Int.ofNat) ∧
    (∀ fallback : List Nat, fallback.length = 4 → ∀ k, k < 4 →
      (resolve_shape_with_fallback dims fallback).getD k 0 =
        if 0 ≤ dims.getD k 0 then (dims.getD k 0).toNat
        else fallback.getD k 0) := by
  refine ⟨?_, ?_, ?_⟩
  · simp only [synthAttentionMask, VT.rankD, hrank]
    rw [if_pos trivial]
    have hshape : resolveVT (.tensor ty dims)
        [encodings.length, 1, maxLenOf encodings, maxLenOf encodings] =
        .ok [encodings.length, 1, maxLenOf encodings, maxLenOf encodings] := by
      simp only [resolveVT, resolve_shape_with_fallback, hrank]
      rw [if_neg (by simp), resolveAxes_all_neg _ _ (by simp [hrank]) hdyn]
    rw [hshape]
    show tensorFromVT (VT.tensor ty dims)
      [encodings.length, 1, maxLenOf encodings, maxLenOf encodings]
      (rank4MaskData (masksUOf (maxLenOf encodings) encodings)
        (maxLenOf encodings)) = _
    simp only [tensorFromVT, tensor_from_i64]
    rw [rank4MaskData_length _ _ (masksUOf_all_length encodings hlen)]
    have hlenU : (masksUOf (maxLenOf encodings) encodings).length =
        encodings.length := by simp [masksUOf]
    rw [hlenU]
    have hprod : List.prod
        [encodings.length, 1, maxLenOf encodings, maxLenOf encodings] =
        encodings.length * (maxLenOf encodings * maxLenOf encodings) := by
      simp [List.prod_cons, List.prod_nil]
    rw [if_neg (by rw [hprod]; simp), if_pos hty]
  · intro i q hi hq
    exact rank4MaskData_slice _ _ i q (masksUOf_all_length encodings hlen)
      (by simpa [masksUOf] using hi) hq
  · intro fallback hfb k hk
    rw [resolve_shape_with_fallback, if_neg (by omega)]
    exact resolveAxes_getD dims fallback k (by omega) (by omega)

/-- C2 witness: two encodings of lengths 2 and 1 against a fully dynamic
rank-4 attention_mask spec give a [2, 1, 2, 2] broadcast mask whose row-1
slices are that row's padded mask [1, 0]. -/
theorem c2_rank4_attention_mask_witness :
    synthAttentionMask (.tensor .i64 [-1, -1, -1, -1]) 2 2 [1, 1, 1, 0]
        [[1, 1], [1, 0]] =
      .ok ⟨[2, 1, 2, 2], [1, 1, 1, 1, 1, 0, 1, 0]⟩ ∧
    ((rank4MaskData [[1, 1], [1, 0]] 2).drop ((1 * 2 + 1) * 2)).take 2 =
      [1, 0] := by
  have h := c2_rank4_attention_mask .i64 [-1, -1, -1, -1]
    [⟨[1, 2], [1, 1]⟩, ⟨[3], [1]⟩] (by decide) (by decide) (by decide) (by decide)
  exact ⟨h.1, h.2.1 1 1 (by decide) (by decide)⟩

/-! ## C1: output tensor selection order -/

theorem except_ok_bind {α β : Type} (a : α) (f : α → Except String β) :
    (Except.ok a >>= f) = f a := rfl

theorem normalize_length (v : List ℝ) : (normalize v).length = v.length := by
  simp [normalize]

/-- An output map exposing both a pooled-style tensor and a per-token
last_hidden_state tensor. -/
noncomputable def oBoth : Outputs :=
  [("sentence_embedding", ⟨[1, 2], [3, 4]⟩),
   ("last_hidden_state", ⟨[1, 1, 3], [5, 6, 7]⟩)]

/-- C1 counterexample: oBoth exposes a pooled-style output (first in
MiniLM's own alias order), yet MiniLM's output handling uses the per-token
last_hidden_state tensor (mean pooling, hidden width 3), not the pooled
rows (hidden width 2) — so the claimed decision order fails for the MiniLM
family. -/
theorem c1_output_selection_counterexample :
    pickFirstKey minilmKeys oBoth = some ⟨[1, 2], [3, 4]⟩ ∧
    minilmPostprocess oBoth [[1]] 1 = .ok [normalize [5, 6, 7]] ∧
    minilmPostprocess oBoth [[1]] 1 ≠ .ok [normalize [3, 4]] := by
  have hmp : mean_pooling_ndarray ⟨1, 3, [5, 6, 7]⟩ (fit_mask [1] 1) =
      [5, 6, 7] := by
    rw [show fit_mask [1] 1 = [1] from rfl]
    simp only [mean_pooling_ndarray]
    rw [if_neg (by decide)]
    rw [show maskFloats [1] (Arr2.nrows ⟨1, 3, [5, 6, 7]⟩) = [(1 : ℝ)] from rfl]
    rw [show List.sum [(1 : ℝ)] = 1 by simp]
    rw [if_neg (by norm_num)]
    rw [show List.range (Arr2.ncols ⟨1, 3, [5, 6, 7]⟩) = [0, 1, 2] from rfl,
      show List.range (Arr2.nrows ⟨1, 3, [5, 6, 7]⟩) = [0] from rfl]
    simp [Arr2.entry]
  have heval : minilmPostprocess oBoth [[1]] 1 = .ok [normalize [5, 6, 7]] := by
    have h0 : minilmPostprocess oBoth [[1]] 1 =
        minilmPerToken ⟨[1, 1, 3], [5, 6, 7]⟩ [[1]] 1 := rfl
    have h1 : minilmPerToken ⟨[1, 1, 3], [5, 6, 7]⟩ [[1]] 1 =
        .ok [normalize (mean_pooling_ndarray ⟨1, 3, [5, 6, 7]⟩
          (fit_mask [1] 1))] := rfl
    rw [h0, h1, hmp]
  have hne : normalize [(5 : ℝ), 6, 7] ≠ normalize [3, 4] := by
    intro habs
    have hl := congrArg List.length habs
    rw [normalize_length, normalize_length] at hl
    simp at hl
  refine ⟨rfl, heval, ?_⟩
  rw [heval]
  intro habs
  injection habs with h2
  injection h2 with h3 _
  exact hne h3

/-- C1 amended: the pick helper shared by BGE, Qwen3 and MiniLM's fallback
path prefers the pooled aliases in order and only then last_hidden_state,
and a rank-2 pooled pick is returned row-sliced by hidden = shape[1]; but
the MiniLM family checks last_hidden_state first and mean-pools it,
consulting the pooled aliases only when last_hidden_state is absent. -/
theorem c1_output_selection_amended :
    (∀ keys outputs t, pickFirstKey keys outputs = some t →
      pick_embedding_tensor keys outputs = .ok t) ∧
    (∀ keys outputs t, pickFirstKey keys outputs = none →
      lookupOut outputs "last_hidden_state" = some t →
      pick_embedding_tensor keys outputs = .ok t) ∧
    (∀ outputs masksU batch t, lookupOut outputs "last_hidden_state" = some t →
      minilmPostprocess outputs masksU batch = minilmPerToken t masksU batch) ∧
    (∀ outputs masksU batch, lookupOut outputs "last_hidden_state" = none →
      minilmPostprocess outputs masksU batch = minilmPooled outputs batch) ∧
    (∀ outputs batch b h data masksU,
      pick_embedding_tensor qwen3Keys outputs = .ok ⟨[b, h], data⟩ →
      b = batch →
      qwen3Postprocess outputs masksU batch = normalizedRows data batch h) := by
  refine ⟨?_, ?_, ?_, ?_, ?_⟩
  · intro keys outputs t h
    simp only [pick_embedding_tensor, h]
  · intro keys outputs t h h2
    simp only [pick_embedding_tensor, h, h2]
  · intro outputs masksU batch t h
    simp only [minilmPostprocess, h]
  · intro outputs masksU batch h
    simp only [minilmPostprocess, h]
  · intro outputs batch b h data masksU hpick hb
    subst hb
    simp only [qwen3Postprocess, hpick, except_ok_bind]
    rw [if_neg (by simp)]

/-- C1 amended witness: on oBoth the shared pick helper (qwen3 alias order)
returns the pooled tensor, while MiniLM's output handling routes to the
per-token path. -/
theorem c1_output_selection_amended_witness :
    pick_embedding_tensor qwen3Keys oBoth = .ok ⟨[1, 2], [3, 4]⟩ ∧
    minilmPostprocess oBoth [[1]] 1 =
      minilmPerToken ⟨[1, 1, 3], [5, 6, 7]⟩ [[1]] 1 := by
  exact ⟨c1_output_selection_amended.1 qwen3Keys oBoth ⟨[1, 2], [3, 4]⟩ rfl,
    c1_output_selection_amended.2.2.1 oBoth [[1]] 1 ⟨[1, 1, 3], [5, 6, 7]⟩ rfl⟩

/-! ## C8: rank-1 attention_mask -/

theorem qwen3AdjustBatch_ok (specs : List (String × VT)) (n m : Nat)
    (h : qwen3AdjustBatch specs n = .ok m) : m = n := by
  unfold qwen3AdjustBatch at h
  split at h
  · split at h
    · next d heq2 =>
      split at h
      · exact absurd h (by simp)
      · next hcond =>
        injection h with h2
        by_cases hd : 0 < d
        · rw [if_pos hd] at h2
          push_neg at hcond
          rw [hcond hd] at h2
          exact h2.symm
        · rw [if_neg hd] at h2
          exact h2.symm
    · injection h with h2
      exact h2.symm
  · injection h with h2
    exact h2.symm

theorem buildInputs_err_mem (batch maxLen : Nat) (idsB maskB : List Int)
    (masksU : List (List Nat)) (ty : ElemTy) (dims : List Int)
    (hrank : dims.length = 1) (hb : 1 < batch) :
    ∀ specs : List (String × VT), ("attention_mask", VT.tensor ty dims) ∈ specs →
    ∃ e, buildInputs batch maxLen idsB maskB masksU specs = .error e := by
  intro specs
  induction specs with
  | nil => intro hmem; simp at hmem
  | cons s rest ih =>
    intro hmem
    rcases List.mem_cons.mp hmem with heq | hmem2
    · subst heq
      simp only [buildInputs]
      have hsyn : synthOne "attention_mask" (VT.tensor ty dims) batch maxLen
          idsB maskB masksU =
          .error "attention_mask rank 1 is not batch-compatible" := by
        simp only [synthOne]
        rw [if_pos trivial]
        simp only [synthAttentionMask, VT.rankD, hrank]
        rw [if_pos trivial, if_pos hb]
        rw [if_neg (by decide)]
      rw [hsyn]
      exact ⟨_, rfl⟩
    · rcases s with ⟨nm, vt⟩
      simp only [buildInputs]
      cases hs : synthOne nm vt batch maxLen idsB maskB masksU with
      | error e => exact ⟨e, rfl⟩
      | ok t =>
        rw [except_ok_bind]
        obtain ⟨e, he⟩ := ih hmem2
        rw [he]
        exact ⟨e, rfl⟩

/-- C8: a rank-1 attention_mask declaration makes synthesis fail with the
rank-incompatibility error whenever batch > 1, and then the whole embed
call fails (for every run oracle, so inference is never consulted); with
batch exactly 1 a single-row mask of length max_len is supplied, the
single row being that encoding's padded mask. -/
theorem c8_rank1_attention_mask (ty : ElemTy) (dims : List Int) :
    (∀ batch maxLen maskB masksU, dims.length = 1 → 1 < batch →
      synthAttentionMask (.tensor ty dims) batch maxLen maskB masksU =
        .error "attention_mask rank 1 is not batch-compatible") ∧
    (∀ specs (run : RunFn) padId (encodings : List Encoding),
      ("attention_mask", VT.tensor ty dims) ∈ specs →
      dims.length = 1 → 1 < encodings.length → 0 < maxLenOf encodings →
      ∃ e, qwen3Embed specs run padId encodings = .error e) ∧
    (∀ d maxLen maskB masksU, dims = [d] → d < 0 → ty.supported = true →
      maskB.length = maxLen →
      synthAttentionMask (.tensor ty dims) 1 maxLen maskB masksU =
        .ok ⟨[maxLen], maskB⟩) ∧
    (∀ (e : Encoding) maxLen, e.mask.length = e.ids.length →
      e.ids.length ≤ maxLen →
      maskBatchOf maxLen [e] = padMaskInt maxLen e ∧
      (padMaskInt maxLen e).length = maxLen) := by
  refine ⟨fun batch maxLen maskB masksU hrank hb => ?_,
    fun specs run padId encodings hmem hrank hb hmax => ?_,
    fun d maxLen maskB masksU hdims hd hty hlen => ?_,
    fun e maxLen hlen hle => ?_⟩
  · simp only [synthAttentionMask, VT.rankD, hrank]
    rw [if_pos trivial, if_pos hb]
  · have hb0 : encodings.isEmpty = false := by
      cases encodings with
      | nil => simp at hb
      | cons x xs => rfl
    simp only [qwen3Embed, hb0, Bool.false_eq_true, if_false]
    cases hadj : qwen3AdjustBatch specs encodings.length with
    | error e => exact ⟨e, rfl⟩
    | ok b =>
      have hbn : b = encodings.length := qwen3AdjustBatch_ok _ _ _ hadj
      rw [except_ok_bind, if_neg (by omega)]
      obtain ⟨e, he⟩ := buildInputs_err_mem b (maxLenOf encodings)
        (idsBatchOf padId (maxLenOf encodings) encodings)
        (maskBatchOf (maxLenOf encodings) encodings)
        (masksUOf (maxLenOf encodings) encodings) ty dims hrank (by omega)
        specs hmem
      rw [he]
      exact ⟨e, rfl⟩
  · subst hdims
    simp only [synthAttentionMask, VT.rankD, List.length_singleton]
    rw [if_pos trivial, if_neg (by omega)]
    have hres : resolveVT (VT.tensor ty [d]) [maxLen] = .ok [maxLen] := by
      simp only [resolveVT, resolve_shape_with_fallback]
      rw [if_neg (by simp)]
      simp [resolveAxes, if_neg (by omega : ¬(0 : Int) ≤ d)]
    rw [hres, except_ok_bind]
    simp only [tensorFromVT, tensor_from_i64]
    rw [show maskB.take maxLen = maskB from by rw [← hlen]; exact List.take_length maskB]
    rw [if_neg (by simp [List.prod_cons, List.prod_nil, hlen]), if_pos hty]
  · constructor
    · simp [maskBatchOf]
    · simp only [padMaskInt, List.length_append, List.length_map,
        List.length_replicate]
      omega

/-- A run oracle that always fails, used to show embed results that are
independent of the engine. -/
def runStub : RunFn := fun _ => .error "no engine"

/-- C8 witness: a model declaring attention_mask of rank 1 with two
encodings fails; with one encoding the padded single-row mask of length 2
is supplied. -/
theorem c8_rank1_attention_mask_witness :
    synthAttentionMask (.tensor .i64 [-1]) 2 1 [1, 1] [[1], [1]] =
      .error "attention_mask rank 1 is not batch-compatible" ∧
    (∃ e, qwen3Embed [("attention_mask", VT.tensor .i64 [-1])] runStub 0
      [⟨[1], [1]⟩, ⟨[2], [1]⟩] = .error e) ∧
    synthAttentionMask (.tensor .i64 [-1]) 1 2 [1, 0] [[1, 0]] =
      .ok ⟨[2], [1, 0]⟩ ∧
    maskBatchOf 2 [⟨[1], [1]⟩] = padMaskInt 2 ⟨[1], [1]⟩ := by
  refine ⟨(c8_rank1_attention_mask .i64 [-1]).1 2 1 [1, 1] [[1], [1]]
      rfl (by decide),
    (c8_rank1_attention_mask .i64 [-1]).2.1
      [("attention_mask", VT.tensor .i64 [-1])] runStub 0
      [⟨[1], [1]⟩, ⟨[2], [1]⟩] (by decide) rfl (by decide) (by decide),
    (c8_rank1_attention_mask .i64 [-1]).2.2.1 (-1) 2 [1, 0] [[1, 0]]
      rfl (by decide) rfl rfl,
    ((c8_rank1_attention_mask .i64 [-1]).2.2.2 ⟨[1], [1]⟩ 2
      rfl (by decide)).1⟩

/-! ## C9: all-empty encodings short-circuit -/

/-- C9: with a non-empty batch whose encodings are all empty (max_len = 0),
every embed implementation succeeds with one empty vector per input before
consulting the run oracle (the result holds for every oracle); for Qwen3
this is under its input_ids batch pre-check passing. -/
theorem c9_empty_encodings (specs : List (String × VT)) (run : RunFn)
    (padId taskId : Int) (encodings : List Encoding) (hne : encodings ≠ [])
    (hempty : ∀ e ∈ encodings, e.ids.length = 0) :
    bgeEmbed specs run padId encodings =
      .ok (List.replicate encodings.length []) ∧
    minilmEmbed specs run padId encodings =
      .ok (List.replicate encodings.length []) ∧
    gemmaEmbed run padId encodings =
      .ok (List.replicate encodings.length []) ∧
    jinaEmbed run padId taskId encodings =
      .ok (List.replicate encodings.length []) ∧
    (qwen3AdjustBatch specs encodings.length = .ok encodings.length →
      qwen3Embed specs run padId encodings =
        .ok (List.replicate encodings.length [])) := by
  have hme : maxLenOf encodings = 0 := maxLenOf_eq_zero encodings hempty
  have hb : encodings.isEmpty = false := by
    cases encodings with
    | nil => exact absurd rfl hne
    | cons e es => rfl
  refine ⟨?_, ?_, ?_, ?_, fun hadj => ?_⟩
  · simp only [bgeEmbed, hb, Bool.false_eq_true, if_false]
    rw [hme, if_pos rfl]
  · simp only [minilmEmbed, hb, Bool.false_eq_true, if_false]
    rw [hme, if_pos rfl]
  · simp only [gemmaEmbed, hb, Bool.false_eq_true, if_false]
    rw [hme, if_pos rfl]
  · simp only [jinaEmbed, hb, Bool.false_eq_true, if_false]
    rw [hme, if_pos rfl]
  · simp only [qwen3Embed, hb, Bool.false_eq_true, if_false]
    rw [hadj, except_ok_bind, hme, if_pos rfl]

/-- C9 witness: a single empty encoding yields [[]] for every family. -/
theorem c9_empty_encodings_witness :
    bgeEmbed [] runStub 0 [⟨[], []⟩] = .ok [[]] ∧
    minilmEmbed [] runStub 0 [⟨[], []⟩] = .ok [[]] ∧
    gemmaEmbed runStub 0 [⟨[], []⟩] = .ok [[]] ∧
    jinaEmbed runStub 0 0 [⟨[], []⟩] = .ok [[]] ∧
    qwen3Embed [] runStub 0 [⟨[], []⟩] = .ok [[]] := by
  have h := c9_empty_encodings [] runStub 0 0 [⟨[], []⟩] (by simp) (by decide)
  exact ⟨h.1, h.2.1, h.2.2.1, h.2.2.2.1, h.2.2.2.2 rfl⟩

end FlutterEmbed
